import Mathlib

/-!
Verification of the affix-slot constraint engine and rule-line compiler of the
exiledbot2-pickit-configurator repository.

The JavaScript sources (src/helpers/tiers.js, src/helpers/generateRowPreviewLines.js,
src/composables/useAffixSlots.js) are embedded shallowly:

* JavaScript values that may be null / undefined / of the wrong dynamic type are
  modelled with `Option`; a field guarded by `typeof x === "string"` becomes
  `Option String`, a field guarded by `Array.isArray` becomes `Option (List _)`.
* Numbers guarded by `Number.isFinite` are modelled as `Option Int` (`none` is
  `null`, `undefined`, `NaN` or an infinity).  The code only ever adds stat
  bounds, and on integers IEEE-754 addition is exact, so `Int` is faithful on
  the integer-valued inputs the claims quantify over.
* A `null` entry inside the slot array behaves, in every function of the source
  (all accesses go through `slot?.field` with null-coalescing), exactly like a
  slot record whose fields are `null`, so slots are plain records.
* The random slot `id` (crypto.randomUUID) is read by no function under
  verification and is omitted from the slot record.
* JS string `trim` is modelled by `jsTrim` over the ASCII whitespace characters
  occurring in the data.
* The `localeCompare`-based display sort is modelled by an insertion sort over
  the template strings; no property below depends on the chosen total order,
  only on the fact that sorting permutes the list.
-/

/-- ASCII whitespace, the fragment of the JavaScript `trim` character class
that occurs in the repository's data. -/
def jsWhitespace (c : Char) : Bool :=
  c == ' ' || c == '\t' || c == '\n' || c == '\r'

/-- Model of `String.prototype.trim`. -/
def jsTrim (s : String) : String :=
  ⟨((s.data.dropWhile jsWhitespace).reverse.dropWhile jsWhitespace).reverse⟩

/-- A stat range `{ id, min, max }` carried by a tier.  Fields are `Option`
because the source re-validates them at the point of use
(`typeof stat?.id === "string"`, `Number.isFinite`). -/
structure StatRange where
  id : Option String := none
  min : Option Int := none
  max : Option Int := none
  deriving DecidableEq

/-- A tier `{ level, name?, text?, stats }` of an affix family. -/
structure Tier where
  level : Option Int := none
  name : Option String := none
  text : Option String := none
  stats : Option (List StatRange) := none
  deriving DecidableEq

/-- An affix family record as consumed by `useAffixSlots.js` and the compiler. -/
structure AffixFamily where
  kind : Option String := none
  domain : Option String := none
  family_key : Option String := none
  identifier : Option String := none
  template : Option String := none
  tiers : Option (List Tier) := none
  deriving DecidableEq

/-- One affix slot: `{ selectedAffixKey: string|null, selectedTierLevel: number|null }`. -/
structure AffixSlot where
  selectedAffixKey : Option String := none
  selectedTierLevel : Option Int := none
  deriving DecidableEq

/-- The part of the selected item record read by the compiler. -/
structure ItemRecord where
  pickitCategory : Option String := none
  deriving DecidableEq

/-! ## src/helpers/tiers.js -/

/-- Ascending sort; models `[...].sort((a, b) => a - b)`.  Duplicate levels are
indistinguishable integers, so the choice of sorting algorithm is irrelevant. -/
def sortAsc (l : List Int) : List Int :=
  l.insertionSort (· ≤ ·)

/-- The finite `level` values of a tier list in list order; models
`tiers.map(t => t?.level).filter(Number.isFinite)`. -/
def finiteLevels (tiers : List Tier) : List Int :=
  tiers.filterMap (fun t => t.level)

/-- `tierIndexFromBottom` of src/helpers/tiers.js.  `none` models the
unresolvable sentinel `"?"`; the JS `indexOf === -1` test appears here as the
`idx < sorted.length` test because `List.indexOf` returns the length when the
element is absent. -/
def tierIndexFromBottom (tiers : List Tier) (tierLevel : Option Int) : Option Nat :=
  if tiers.length = 0 then none
  else
    match tierLevel with
    | none => none
    | some lvl =>
      let sorted := sortAsc (finiteLevels tiers)
      let idx := sorted.indexOf lvl
      if idx < sorted.length then some (sorted.length - idx) else none

/-! ## src/helpers/generateRowPreviewLines.js -/

/-- JS truthiness of `slot?.selectedAffixKey` (`null` and `""` are falsy). -/
def truthyKey (slot : AffixSlot) : Bool :=
  match slot.selectedAffixKey with
  | some k => k != ""
  | none => false

/-- `countSelectedAffixes`: count slots whose `selectedAffixKey` is truthy. -/
def countSelectedAffixes (affixSlots : List AffixSlot) : Nat :=
  affixSlots.countP truthyKey

/-- `rarityFromSelectedAffixCount`. -/
def rarityFromSelectedAffixCount (selectedAffixCount : Nat) : String :=
  if selectedAffixCount = 0 then "Normal"
  else if selectedAffixCount ≤ 2 then "Magic"
  else "Rare"

/-- The fixed allow-list of pickit action flags. -/
def allowedActionFlags : List String :=
  ["StashItem", "StashUnid", "Salvage", "IgnoreRitual"]

/-- `resolvePickitActionFlag`: trim, allow-list, default to `"StashItem"`.
A non-string input (`none`) trims to the empty string. -/
def resolvePickitActionFlag (raw : Option String) : String :=
  let actionFlag := jsTrim (raw.getD "")
  if actionFlag = "" then "StashItem"
  else if actionFlag ∈ allowedActionFlags then actionFlag
  else "StashItem"

/-- `resolvePickitCategoryFromItem`: trimmed category, or `none` when the item
is absent, the field is not a string, or it trims to blank. -/
def resolvePickitCategoryFromItem (selectedItem : Option ItemRecord) : Option String :=
  let pickitCategory := jsTrim ((selectedItem.bind (fun it => it.pickitCategory)).getD "")
  if pickitCategory = "" then none else some pickitCategory

/-- One aggregated entry of the `totalsById` map. -/
structure StatTotal where
  id : String
  min : Int
  max : Int
  deriving DecidableEq

/-- The contribution of one `StatRange`: its trimmed non-empty id together with
finite min and max, or nothing (the source `continue`s). -/
def statContrib (stat : StatRange) : Option (String × Int × Int) :=
  let statId := jsTrim (stat.id.getD "")
  if statId = "" then none
  else
    match stat.min, stat.max with
    | some minValue, some maxValue => some (statId, minValue, maxValue)
    | _, _ => none

/-- Insertion into the totals map: add into the existing entry for the id, or
append a fresh entry (JS `Map.set` on first occurrence, `+=` afterwards). -/
def addTotal : List StatTotal → String → Int → Int → List StatTotal
  | [], statId, minValue, maxValue => [⟨statId, minValue, maxValue⟩]
  | t :: ts, statId, minValue, maxValue =>
    if t.id = statId then ⟨t.id, t.min + minValue, t.max + maxValue⟩ :: ts
    else t :: addTotal ts statId minValue maxValue

/-- `Map.get` on the totals map. -/
def lookupTotal : List StatTotal → String → Option StatTotal
  | [], _ => none
  | t :: ts, statId => if t.id = statId then some t else lookupTotal ts statId

/-- The stat contributions of one slot in `collectOrderedStatsAndTotals`:
empty unless the slot has a truthy affix key, a finite tier level, a resolvable
affix family, and a tier of that level in the slot's tier list; otherwise the
valid `StatRange` contributions of that tier's `stats`, in order. -/
def slotContribs (findAffix : String → Option AffixFamily)
    (tiersFor : Nat → Option (List Tier)) (slotIndex : Nat) (slot : AffixSlot) :
    List (String × Int × Int) :=
  match slot.selectedAffixKey with
  | none => []
  | some selectedAffixKey =>
    if selectedAffixKey = "" then []
    else
      match slot.selectedTierLevel with
      | none => []
      | some selectedTierLevel =>
        match findAffix selectedAffixKey with
        | none => []
        | some _ =>
          let tiers := (tiersFor slotIndex).getD []
          match tiers.find? (fun t => t.level == some selectedTierLevel) with
          | none => []
          | some selectedTier =>
            (selectedTier.stats.getD []).filterMap statContrib

/-- The per-slot contribution lists, walking the slots from `slotIndex` up. -/
def slotContribsFrom (findAffix : String → Option AffixFamily)
    (tiersFor : Nat → Option (List Tier)) : Nat → List AffixSlot →
    List (List (String × Int × Int))
  | _, [] => []
  | slotIndex, slot :: rest =>
    slotContribs findAffix tiersFor slotIndex slot ::
      slotContribsFrom findAffix tiersFor (slotIndex + 1) rest

/-- All contributions of a slot collection, flattened in slot order. -/
def contribsOf (affixSlots : List AffixSlot) (findAffix : String → Option AffixFamily)
    (tiersFor : Nat → Option (List Tier)) : List (String × Int × Int) :=
  (slotContribsFrom findAffix tiersFor 0 affixSlots).flatten

/-- `collectOrderedStatsAndTotals`: the order-preserving per-slot stat-id lists
(empty slots keep their position) and the totals map summed over all slots. -/
def collectOrderedStatsAndTotals (affixSlots : List AffixSlot)
    (findAffix : String → Option AffixFamily) (tiersFor : Nat → Option (List Tier)) :
    List (List String) × List StatTotal :=
  let perSlot := slotContribsFrom findAffix tiersFor 0 affixSlots
  (perSlot.map (fun l => l.map (fun c => c.1)),
   perSlot.flatten.foldl (fun acc c => addTotal acc c.1 c.2.1 c.2.2) [])

/-- The emitted greater-or-equal condition. -/
def condGe (statId : String) (minValue : Int) : String :=
  statId ++ " >= \"" ++ toString minValue ++ "\""

/-- The emitted less-or-equal condition. -/
def condLe (statId : String) (maxValue : Int) : String :=
  statId ++ " <= \"" ++ toString maxValue ++ "\""

/-- The nested loops of `buildAfterIdentifyStatConditionsInSlotOrder`, running
over the flattened stat ids with the `emitted` set as accumulator. -/
def buildAfterGo (totalsById : List StatTotal) : List String → List String → List String
  | _, [] => []
  | emitted, statId :: rest =>
    if statId = "" ∨ statId ∈ emitted then buildAfterGo totalsById emitted rest
    else
      match lookupTotal totalsById statId with
      | none => buildAfterGo totalsById emitted rest
      | some total =>
        condGe statId total.min :: condLe statId total.max ::
          buildAfterGo totalsById (statId :: emitted) rest

/-- `buildAfterIdentifyStatConditionsInSlotOrder`: iterating the per-slot lists
in slot order and each list in stat order is iterating their concatenation. -/
def buildAfterIdentifyStatConditionsInSlotOrder (orderedSlots : List (List String))
    (totalsById : List StatTotal) : List String :=
  buildAfterGo totalsById [] orderedSlots.flatten

/-- How a JS template literal renders the tier index (`number | "?"`). -/
def renderRank : Option Nat → String
  | some n => toString n
  | none => "?"

/-- How a JS template literal renders a possibly-undefined string field. -/
def jsStr : Option String → String
  | some s => s
  | none => "undefined"

/-- `t?.level === selectedTierLevel` in `buildHumanCommentLine`: two absent or
non-finite levels never compare equal (undefined === null is false). -/
def eqLevels : Option Int → Option Int → Bool
  | some a, some b => a == b
  | _, _ => false

/-- The descriptions loop of `buildHumanCommentLine`. -/
def commentDescs (findAffix : String → Option AffixFamily)
    (tiersFor : Nat → Option (List Tier)) : Nat → List AffixSlot → List String
  | _, [] => []
  | slotIndex, slot :: rest =>
    let tail := commentDescs findAffix tiersFor (slotIndex + 1) rest
    match slot.selectedAffixKey with
    | none => tail
    | some k =>
      if k = "" then tail
      else
        match findAffix k with
        | none => tail
        | some affix =>
          let tiers := (tiersFor slotIndex).getD []
          let selectedTier := tiers.find? (fun t => eqLevels t.level slot.selectedTierLevel)
          let tierText :=
            match selectedTier with
            | some st => "T" ++ renderRank (tierIndexFromBottom tiers st.level)
            | none => "any tier"
          (jsStr affix.template ++ " of tier " ++ tierText) :: tail

/-- `buildHumanCommentLine` as invoked by the compiler. -/
def buildHumanCommentLine (selectedItem : Option ItemRecord) (affixSlots : List AffixSlot)
    (findAffix : String → Option AffixFamily) (tiersFor : Nat → Option (List Tier))
    (inferredRarity : String) (actionFlag : String) : String :=
  let pickitCategory :=
    match selectedItem.bind (fun it => it.pickitCategory) with
    | some c => if c = "" then "UNKNOWN" else c
    | none => "UNKNOWN"
  let rarity := if inferredRarity = "" then "Unknown" else inferredRarity
  let flag := if actionFlag = "" then "StashItem" else actionFlag
  let descs := commentDescs findAffix tiersFor 0 affixSlots
  let affixPart :=
    if descs.length ≠ 0 then " if they have at least " ++ String.intercalate ", " descs
    else ""
  "// Picks up " ++ pickitCategory ++ " of rarity " ++ rarity ++ " and " ++ flag ++ affixPart

/-- The fixed fallback line emitted when no pickit category is configured. -/
def unknownCategoryFallbackLine : String :=
  "[Category] == \"UNKNOWN\" # [StashItem] == \"true\""

/-- The argument record of `generateRowPreviewLines`.  The source replaces a
non-function `findAffixByKey` / `availableTiersForSlot` by a constant-null
function, so plain function fields (defaulting to that constant) are faithful. -/
structure PreviewParams where
  configType : Option String := none
  selectedItemSlug : Option String := none
  selectedItem : Option ItemRecord := none
  affixSlots : List AffixSlot := []
  actionFlag : Option String := none
  findAffixByKey : String → Option AffixFamily := fun _ => none
  availableTiersForSlot : Nat → Option (List Tier) := fun _ => none

/-- `generateRowPreviewLines` of src/helpers/generateRowPreviewLines.js
(the `configType`-aware version). -/
def generateRowPreviewLines (params : PreviewParams) : List String :=
  if params.configType.getD "items" ≠ "items" then []
  else if params.selectedItemSlug.getD "" = "" then []
  else
    match resolvePickitCategoryFromItem params.selectedItem with
    | none => [unknownCategoryFallbackLine]
    | some pickitCategory =>
      let inferredRarity := rarityFromSelectedAffixCount (countSelectedAffixes params.affixSlots)
      let actionFlag := resolvePickitActionFlag params.actionFlag
      let collected := collectOrderedStatsAndTotals params.affixSlots params.findAffixByKey
        params.availableTiersForSlot
      let statConditions := buildAfterIdentifyStatConditionsInSlotOrder collected.1 collected.2
      let afterConditions := statConditions ++ ["[" ++ actionFlag ++ "] == \"true\""]
      let beforeIdentify :=
        "[Category] == \"" ++ pickitCategory ++ "\" && [Rarity] == \"" ++ inferredRarity ++ "\""
      let commentLine := buildHumanCommentLine params.selectedItem params.affixSlots
        params.findAffixByKey params.availableTiersForSlot inferredRarity actionFlag
      [commentLine, beforeIdentify ++ " # " ++ String.intercalate " && " afterConditions]

/-! ## src/composables/useAffixSlots.js -/

/-- `affixKey`: the composite identity key of an affix family; `"||||"` for a
malformed (null / non-object) input, and otherwise the five fields (non-string
fields as empty strings) joined with `"|"`. -/
def affixKey (affixFamily : Option AffixFamily) : String :=
  match affixFamily with
  | none => "||||"
  | some f =>
    f.kind.getD "" ++ "|" ++ f.domain.getD "" ++ "|" ++ f.family_key.getD "" ++ "|" ++
      f.identifier.getD "" ++ "|" ++ f.template.getD ""

/-- `findAffixByKey`: null for a falsy key, otherwise the first catalog entry
with that key. -/
def findAffixByKey (catalog : List AffixFamily) (key : Option String) : Option AffixFamily :=
  match key with
  | none => none
  | some k => if k = "" then none else catalog.find? (fun a => affixKey (some a) == k)

/-- `kindOfSelectedKey`: the kind string of the affix found for a key, or `""`. -/
def kindOfSelectedKey (catalog : List AffixFamily) (key : Option String) : String :=
  match findAffixByKey catalog key with
  | some a => a.kind.getD ""
  | none => ""

/-- The kind a slot's selection counts as in `countSelectedKinds`: `""` when the
slot's key is falsy (the source `continue`s), otherwise `kindOfSelectedKey`. -/
def selectedKindOfSlot (catalog : List AffixFamily) (slot : AffixSlot) : String :=
  match slot.selectedAffixKey with
  | none => ""
  | some k => if k = "" then "" else kindOfSelectedKey catalog (some k)

/-- The loop of `countSelectedKinds`, carrying the running slot index. -/
def countKindsAux (catalog : List AffixFamily) (exceptSlotIndex : Option Nat) :
    Nat → List AffixSlot → Nat × Nat
  | _, [] => (0, 0)
  | i, slot :: rest =>
    let r := countKindsAux catalog exceptSlotIndex (i + 1) rest
    if exceptSlotIndex = some i then r
    else
      let kind := selectedKindOfSlot catalog slot
      ((if kind = "prefix" then r.1 + 1 else r.1),
       (if kind = "suffix" then r.2 + 1 else r.2))

/-- `countSelectedKinds(exceptSlotIndex)`: `(prefixes, suffixes)` selected
across all slots except the given one. -/
def countSelectedKinds (catalog : List AffixFamily) (slots : List AffixSlot)
    (exceptSlotIndex : Option Nat) : Nat × Nat :=
  countKindsAux catalog exceptSlotIndex 0 slots

/-- `excludedKeysForSlot`: the truthy selected keys of all earlier slots. -/
def excludedKeysForSlot (slots : List AffixSlot) (slotIndex : Nat) : List String :=
  ((slots.take slotIndex).filterMap (fun s => s.selectedAffixKey)).filter (fun k => k != "")

/-- `slots.value[slotIndex]?.selectedAffixKey || null` of `groupsForSlot`. -/
def currentSelectedKeyAt (slots : List AffixSlot) (slotIndex : Nat) : Option String :=
  match slots.get? slotIndex with
  | none => none
  | some slot =>
    match slot.selectedAffixKey with
    | none => none
    | some k => if k = "" then none else some k

/-- The `currentSelectedKind` of `groupsForSlot`. -/
def currentSelectedKindAt (catalog : List AffixFamily) (slots : List AffixSlot)
    (slotIndex : Nat) : String :=
  match currentSelectedKeyAt slots slotIndex with
  | some k => kindOfSelectedKey catalog (some k)
  | none => ""

/-- The filter predicate of `groupsForSlot`: keep the slot's own current
selection; exclude keys selected by earlier slots; enforce the prefix/suffix
caps, where the slot's own selected kind re-enables its kind. -/
def slotFilterPred (catalog : List AffixFamily) (maxPrefixesAllowed maxSuffixesAllowed : Nat)
    (slots : List AffixSlot) (slotIndex : Nat) (affixFamily : AffixFamily) : Bool :=
  let countsExcludingCurrent := countSelectedKinds catalog slots (some slotIndex)
  let currentSelectedKey := currentSelectedKeyAt slots slotIndex
  let currentSelectedKind := currentSelectedKindAt catalog slots slotIndex
  let prefAllowed :=
    countsExcludingCurrent.1 < maxPrefixesAllowed ∨ currentSelectedKind = "prefix"
  let sufAllowed :=
    countsExcludingCurrent.2 < maxSuffixesAllowed ∨ currentSelectedKind = "suffix"
  let key := affixKey (some affixFamily)
  let kind := affixFamily.kind.getD ""
  if currentSelectedKey = some key then true
  else if key ∈ excludedKeysForSlot slots slotIndex then false
  else if kind = "prefix" ∧ ¬ prefAllowed then false
  else if kind = "suffix" ∧ ¬ sufAllowed then false
  else true

/-- The filtered catalog of `groupsForSlot`, before grouping and sorting. -/
def filteredForSlot (catalog : List AffixFamily) (maxPrefixesAllowed maxSuffixesAllowed : Nat)
    (slots : List AffixSlot) (slotIndex : Nat) : List AffixFamily :=
  catalog.filter (slotFilterPred catalog maxPrefixesAllowed maxSuffixesAllowed slots slotIndex)

/-- Display sort by template (`localeCompare` modelled by the string order;
every property proved below is invariant under the permutation). -/
def sortByTemplate (l : List AffixFamily) : List AffixFamily :=
  l.insertionSort (fun a b => a.template.getD "" ≤ b.template.getD "")

/-- One `<optgroup>` bucket of `groupsForSlot`. -/
structure OptGroup where
  label : String
  items : List AffixFamily
  deriving DecidableEq

/-- `groupsForSlot`: the filtered catalog grouped into prefix / suffix / other
buckets, sorted by template, empty buckets omitted. -/
def groupsForSlot (catalog : List AffixFamily) (maxPrefixesAllowed maxSuffixesAllowed : Nat)
    (slots : List AffixSlot) (slotIndex : Nat) : List OptGroup :=
  let filtered := filteredForSlot catalog maxPrefixesAllowed maxSuffixesAllowed slots slotIndex
  let prefixGroup := sortByTemplate (filtered.filter (fun a => a.kind == some "prefix"))
  let suffixGroup := sortByTemplate (filtered.filter (fun a => a.kind == some "suffix"))
  let otherGroup := sortByTemplate
    (filtered.filter (fun a => a.kind != some "prefix" && a.kind != some "suffix"))
  (if prefixGroup.length ≠ 0 then [OptGroup.mk "-- Prefixes --" prefixGroup] else []) ++
    (if suffixGroup.length ≠ 0 then [OptGroup.mk "-- Suffixes --" suffixGroup] else []) ++
    (if otherGroup.length ≠ 0 then [OptGroup.mk "-- Other --" otherGroup] else [])

/-- The affixes a slot's dropdown offers: the items of all its option groups. -/
def offeredAffixes (catalog : List AffixFamily) (maxPrefixesAllowed maxSuffixesAllowed : Nat)
    (slots : List AffixSlot) (slotIndex : Nat) : List AffixFamily :=
  (groupsForSlot catalog maxPrefixesAllowed maxSuffixesAllowed slots slotIndex).flatMap
    (fun g => g.items)

/-- A freshly created empty slot. -/
def emptySlot : AffixSlot := {}

/-- `totalOptions` of `canAddSlot`. -/
def totalOptionCount (groups : List OptGroup) : Nat :=
  groups.foldl (fun acc g => acc + g.items.length) 0

/-- `canAddSlot`: below the slot cap, a non-empty catalog, and at least one
option for the would-be next slot. -/
def canAddSlot (catalog : List AffixFamily) (maxAffixSlots maxPrefixesAllowed maxSuffixesAllowed : Nat)
    (slots : List AffixSlot) : Bool :=
  if maxAffixSlots ≤ slots.length then false
  else if catalog.length = 0 then false
  else 0 < totalOptionCount
    (groupsForSlot catalog maxPrefixesAllowed maxSuffixesAllowed slots slots.length)

/-- Set a slot's affix selection; the `watch` of the composable clears the tier
selection in the same update.  Out-of-range indices leave the list unchanged. -/
def setSlotKey (slots : List AffixSlot) (slotIndex : Nat) (key : Option String) :
    List AffixSlot :=
  match slots.get? slotIndex with
  | none => slots
  | some s => slots.set slotIndex { s with selectedAffixKey := key, selectedTierLevel := none }

/-- Set a slot's tier selection. -/
def setSlotTier (slots : List AffixSlot) (slotIndex : Nat) (lvl : Option Int) :
    List AffixSlot :=
  match slots.get? slotIndex with
  | none => slots
  | some s => slots.set slotIndex { s with selectedTierLevel := lvl }

/-- The public operations of the composable: `addSlot`, `removeSlot`,
`resetSlots`, and the dropdown selections bound by the Row component (choosing
an offered affix, clearing a slot's selection, choosing a tier). -/
inductive SlotOp where
  | add
  | remove (slotIndex : Nat)
  | reset
  | select (slotIndex : Nat) (affixFamily : AffixFamily)
  | clear (slotIndex : Nat)
  | setTier (slotIndex : Nat) (lvl : Option Int)
  deriving DecidableEq

/-- State transition of one public operation.  `select` only applies when the
chosen affix is among the options `groupsForSlot` offers for that slot. -/
def applyOp (catalog : List AffixFamily)
    (maxAffixSlots maxPrefixesAllowed maxSuffixesAllowed : Nat) :
    SlotOp → List AffixSlot → List AffixSlot
  | .add, slots =>
    if maxAffixSlots ≤ slots.length then slots
    else if canAddSlot catalog maxAffixSlots maxPrefixesAllowed maxSuffixesAllowed slots
      then slots ++ [emptySlot] else slots
  | .remove slotIndex, slots =>
    if slots.length ≤ 1 then slots else slots.eraseIdx slotIndex
  | .reset, _ => [emptySlot]
  | .select slotIndex affixFamily, slots =>
    if affixFamily ∈ offeredAffixes catalog maxPrefixesAllowed maxSuffixesAllowed slots slotIndex
      then setSlotKey slots slotIndex (some (affixKey (some affixFamily)))
      else slots
  | .clear slotIndex, slots => setSlotKey slots slotIndex none
  | .setTier slotIndex lvl, slots => setSlotTier slots slotIndex lvl

/-- Slot collections reachable from the initial single empty slot through the
public operations. -/
inductive ReachableSlots (catalog : List AffixFamily)
    (maxAffixSlots maxPrefixesAllowed maxSuffixesAllowed : Nat) : List AffixSlot → Prop
  | init : ReachableSlots catalog maxAffixSlots maxPrefixesAllowed maxSuffixesAllowed [emptySlot]
  | step (op : SlotOp) (slots : List AffixSlot) :
      ReachableSlots catalog maxAffixSlots maxPrefixesAllowed maxSuffixesAllowed slots →
      ReachableSlots catalog maxAffixSlots maxPrefixesAllowed maxSuffixesAllowed
        (applyOp catalog maxAffixSlots maxPrefixesAllowed maxSuffixesAllowed op slots)

/-! ## Definitions taken from the specification's wording (for comparison) -/

/-- Modelled from the spec: the tier rank computed over the DISTINCT finite
levels, as the claim words it ("sort all distinct finite levels ascending;
rank = count(levels) - indexOf(level)"). -/
def tierRankOverDistinctLevels (tiers : List Tier) (tierLevel : Option Int) : Option Nat :=
  if tiers.length = 0 then none
  else
    match tierLevel with
    | none => none
    | some lvl =>
      let sorted := sortAsc (finiteLevels tiers).dedup
      let idx := sorted.indexOf lvl
      if idx < sorted.length then some (sorted.length - idx) else none

/-- First-occurrence deduplication with an explicit seen-set accumulator. -/
def firstDedupGo : List String → List String → List String
  | _, [] => []
  | seen, x :: xs =>
    if x ∈ seen then firstDedupGo seen xs else x :: firstDedupGo (x :: seen) xs

/-- Keep the first occurrence of every element (the spec's "first time a given
stat id is encountered" order). -/
def firstDedup (l : List String) : List String :=
  firstDedupGo [] l

/-- Sum of the min bounds contributed for one stat id. -/
def sumMinFor (contribs : List (String × Int × Int)) (statId : String) : Int :=
  ((contribs.filter (fun c => c.1 == statId)).map (fun c => c.2.1)).sum

/-- Sum of the max bounds contributed for one stat id. -/
def sumMaxFor (contribs : List (String × Int × Int)) (statId : String) : Int :=
  ((contribs.filter (fun c => c.1 == statId)).map (fun c => c.2.2)).sum

/-- Does this slot count as a selected prefix in `countSelectedKinds`? -/
def prefSel (catalog : List AffixFamily) (slot : AffixSlot) : Bool :=
  selectedKindOfSlot catalog slot == "prefix"

/-- Does this slot count as a selected suffix in `countSelectedKinds`? -/
def sufSel (catalog : List AffixFamily) (slot : AffixSlot) : Bool :=
  selectedKindOfSlot catalog slot == "suffix"

/-! ## Concrete instances used by the witnesses and counterexamples -/

/-- Counterexample to C7 as stated: a slot whose `selectedAffixKey` is the
empty string is non-null, so the claim demands selected-count 1 and rarity
`"Magic"`, but the code's truthiness test skips it and infers `"Normal"`. -/
def oneEmptyStringKeySlot : List AffixSlot :=
  [{ selectedAffixKey := some "" }]

/-- C6 counterexample: with config type `"items"` and a selected item whose
`pickitCategory` is blank, but no selected item slug, the compiler returns the
empty list, not the single fallback line the claim requires. -/
def blankCategoryNoSlugParams : PreviewParams :=
  { configType := some "items", selectedItem := some { pickitCategory := some "" } }

/-- Concrete input for the C6 witness: an item whose category is whitespace. -/
def blankCategoryParams : PreviewParams :=
  { configType := some "items", selectedItemSlug := some "ring",
    selectedItem := some { pickitCategory := some " " } }

/-- Tiers with a duplicated finite level. -/
def dupLevelTiers : List Tier :=
  [{ level := some 10 }, { level := some 10 }, { level := some 20 }]

/-- The spec's three-level tier list. -/
def threeLevelTiers : List Tier :=
  [{ level := some 1 }, { level := some 10 }, { level := some 20 }]

/-- Witness tier: one stat `{id: "life", min: 10, max: 20}` at level 1. -/
def c1Tier : Tier :=
  { level := some 1, stats := some [{ id := some "life", min := some 10, max := some 20 }] }

/-- Witness affix lookup resolving the two slot keys. -/
def c1Find : String → Option AffixFamily := fun k =>
  if k = "k1" ∨ k = "k2" then some { template := some "life mod" } else none

/-- Witness tier lookup: the same single-tier list for every slot. -/
def c1TiersFor : Nat → Option (List Tier) := fun _ => some [c1Tier]

/-- Two slots, each selecting an affix whose chosen tier contributes
`{id: "life", min: 10, max: 20}`. -/
def c1Slots : List AffixSlot :=
  [{ selectedAffixKey := some "k1", selectedTierLevel := some 1 },
   { selectedAffixKey := some "k2", selectedTierLevel := some 1 }]

/-- Witness compiler input for C1. -/
def c1Params : PreviewParams :=
  { configType := some "items", selectedItemSlug := some "ring",
    selectedItem := some { pickitCategory := some "Ring" },
    affixSlots := c1Slots, actionFlag := none,
    findAffixByKey := c1Find, availableTiersForSlot := c1TiersFor }

/-- Witness affix for C5. -/
def c5Affix : AffixFamily :=
  { kind := some "prefix", domain := some "d", family_key := some "f",
    identifier := some "i", template := some "T" }

/-- Witness slots for C5: slots 0 and 1 both hold the witness affix's key. -/
def c5Slots : List AffixSlot :=
  [{ selectedAffixKey := some (affixKey (some c5Affix)) },
   { selectedAffixKey := some (affixKey (some c5Affix)) }]

/-- Witness catalog for C4: a single prefix affix. -/
def c4Affix : AffixFamily :=
  { kind := some "prefix", domain := some "d", family_key := some "f",
    identifier := some "g", template := some "S" }

/-- Witness catalog for C4. -/
def c4Catalog : List AffixFamily := [c4Affix]

/-! ## Helper lemmas -/

theorem str_eq_empty_of_data_eq_nil {s : String} (h : s.data = []) : s = "" := by
  cases s with
  | mk d => cases h; rfl

theorem affixKey_some_data (f : AffixFamily) :
    (affixKey (some f)).data =
      (f.kind.getD "").data ++ '|' :: ((f.domain.getD "").data ++ '|' ::
        ((f.family_key.getD "").data ++ '|' :: ((f.identifier.getD "").data ++ '|' ::
          (f.template.getD "").data))) := by
  simp [affixKey, String.data_append]

theorem affixKey_some_ne_empty (f : AffixFamily) : affixKey (some f) ≠ "" := by
  intro h
  have hd := congrArg String.data h
  rw [affixKey_some_data] at hd
  simp at hd

theorem parts_nil_of_eq_four_pipes {a b c d e : List Char}
    (h : a ++ '|' :: (b ++ '|' :: (c ++ '|' :: (d ++ '|' :: e))) = ['|', '|', '|', '|']) :
    a = [] ∧ b = [] ∧ c = [] ∧ d = [] ∧ e = [] := by
  have hlen := congrArg List.length h
  simp [List.length_append] at hlen
  refine ⟨List.length_eq_zero.mp (by omega), List.length_eq_zero.mp (by omega),
    List.length_eq_zero.mp (by omega), List.length_eq_zero.mp (by omega),
    List.length_eq_zero.mp (by omega)⟩

/-! ## Claim C10: totality and sentinel behavior of the affix key -/

/-- C10: the affix key function is total (it is a Lean function into `String`),
returns the sentinel `"||||"` for malformed (null / non-object) input, joins the
five fields (non-string fields as `""`) with the `"|"` separator for any
well-formed affix, and a well-formed affix collides with the sentinel exactly
when it is itself degenerate (all five fields empty or non-string). -/
theorem affixKey_total_and_sentinel :
    affixKey none = "||||" ∧
    (∀ f : AffixFamily,
      affixKey (some f) =
        f.kind.getD "" ++ "|" ++ f.domain.getD "" ++ "|" ++ f.family_key.getD "" ++ "|" ++
          f.identifier.getD "" ++ "|" ++ f.template.getD "") ∧
    (∀ f : AffixFamily,
      affixKey (some f) = "||||" ↔
        (f.kind.getD "" = "" ∧ f.domain.getD "" = "" ∧ f.family_key.getD "" = "" ∧
          f.identifier.getD "" = "" ∧ f.template.getD "" = "")) := by
  refine ⟨rfl, fun f => rfl, fun f => ⟨fun h => ?_, fun h => ?_⟩⟩
  · have hd := congrArg String.data h
    rw [affixKey_some_data] at hd
    obtain ⟨h1, h2, h3, h4, h5⟩ := parts_nil_of_eq_four_pipes hd
    exact ⟨str_eq_empty_of_data_eq_nil h1, str_eq_empty_of_data_eq_nil h2,
      str_eq_empty_of_data_eq_nil h3, str_eq_empty_of_data_eq_nil h4,
      str_eq_empty_of_data_eq_nil h5⟩
  · obtain ⟨h1, h2, h3, h4, h5⟩ := h
    simp [affixKey, h1, h2, h3, h4, h5]

/-! ## Claim C9: action-flag resolution stays in the allow-list -/

/-- C9: the resolved action flag is the trimmed input when that is one of the
four allowed flags and `"StashItem"` otherwise (including for non-string, empty
and whitespace-only input), so the resolved flag is always allow-listed. -/
theorem resolvePickitActionFlag_allowlisted (raw : Option String) :
    resolvePickitActionFlag raw ∈ allowedActionFlags ∧
    resolvePickitActionFlag raw =
      (if jsTrim (raw.getD "") ∈ allowedActionFlags then jsTrim (raw.getD "")
       else "StashItem") := by
  have hval : resolvePickitActionFlag raw =
      (if jsTrim (raw.getD "") ∈ allowedActionFlags then jsTrim (raw.getD "")
       else "StashItem") := by
    by_cases h0 : jsTrim (raw.getD "") = ""
    · simp only [resolvePickitActionFlag]
      rw [if_pos h0, h0]
      decide
    · simp only [resolvePickitActionFlag]
      rw [if_neg h0]
  refine ⟨?_, hval⟩
  rw [hval]
  by_cases h1 : jsTrim (raw.getD "") ∈ allowedActionFlags
  · rw [if_pos h1]
    exact h1
  · rw [if_neg h1]
    decide

/-! ## Claim C7 (corrected): rarity inference -/

/-- C7 counterexample: the inferred rarity is not the claimed function of the
number of slots with a NON-NULL `selectedAffixKey`. -/
theorem rarity_nonnull_count_counterexample :
    (oneEmptyStringKeySlot.countP (fun s => s.selectedAffixKey.isSome) = 1) ∧
    rarityFromSelectedAffixCount (countSelectedAffixes oneEmptyStringKeySlot) = "Normal" ∧
    rarityFromSelectedAffixCount (countSelectedAffixes oneEmptyStringKeySlot) ≠ "Magic" := by
  decide

/-- C7 (amended): the inferred rarity is a pure function of the number of slots
with a truthy (non-null, non-empty) `selectedAffixKey`: count 0 yields
`"Normal"`, 1 and 2 yield `"Magic"`, 3 or more yields `"Rare"`; it is
independent of the tier selections (and takes no cap inputs at all). -/
theorem rarity_determined_by_truthy_selected_count (affixSlots : List AffixSlot) :
    (rarityFromSelectedAffixCount (countSelectedAffixes affixSlots) = "Normal" ↔
      affixSlots.countP truthyKey = 0) ∧
    (rarityFromSelectedAffixCount (countSelectedAffixes affixSlots) = "Magic" ↔
      (1 ≤ affixSlots.countP truthyKey ∧ affixSlots.countP truthyKey ≤ 2)) ∧
    (rarityFromSelectedAffixCount (countSelectedAffixes affixSlots) = "Rare" ↔
      3 ≤ affixSlots.countP truthyKey) ∧
    rarityFromSelectedAffixCount (countSelectedAffixes
      (affixSlots.map (fun s => { s with selectedTierLevel := none }))) =
      rarityFromSelectedAffixCount (countSelectedAffixes affixSlots) := by
  have hmap : countSelectedAffixes
      (affixSlots.map (fun s => { s with selectedTierLevel := none })) =
      countSelectedAffixes affixSlots := by
    unfold countSelectedAffixes
    rw [List.countP_map]
    rfl
  have key : ∀ n : Nat,
      (rarityFromSelectedAffixCount n = "Normal" ↔ n = 0) ∧
      (rarityFromSelectedAffixCount n = "Magic" ↔ (1 ≤ n ∧ n ≤ 2)) ∧
      (rarityFromSelectedAffixCount n = "Rare" ↔ 3 ≤ n) := by
    intro n
    match n with
    | 0 => decide
    | 1 => decide
    | 2 => decide
    | m + 3 =>
      have h1 : ¬ (m + 3 = 0) := by omega
      have h2 : ¬ (m + 3 ≤ 2) := by omega
      have hN : ("Rare" : String) ≠ "Normal" := by decide
      have hM : ("Rare" : String) ≠ "Magic" := by decide
      simp [rarityFromSelectedAffixCount, h1, h2, hN, hM]
  have hk := key (countSelectedAffixes affixSlots)
  exact ⟨hk.1, hk.2.1, hk.2.2, by rw [hmap]⟩

/-! ## Claim C6 (corrected): the unknown-category fallback line -/

/-- C6 counterexample: the fallback line is not produced when the item slug is
empty, although the config type is `"items"` and the category is blank. -/
theorem fallback_line_requires_slug_counterexample :
    blankCategoryNoSlugParams.configType.getD "items" = "items" ∧
    resolvePickitCategoryFromItem blankCategoryNoSlugParams.selectedItem = none ∧
    generateRowPreviewLines blankCategoryNoSlugParams = [] ∧
    generateRowPreviewLines blankCategoryNoSlugParams ≠ [unknownCategoryFallbackLine] := by
  decide

/-- C6 (amended): for every compiler input with config type `"items"`, a
non-empty item slug, and an absent or blank `pickitCategory`, the compiler
returns exactly the one fixed fallback line pairing category `"UNKNOWN"` with
the default stash action and no rarity clause (and, being a total Lean
function, it never throws). -/
theorem fallback_line_on_blank_category (params : PreviewParams)
    (hType : params.configType.getD "items" = "items")
    (hSlug : params.selectedItemSlug.getD "" ≠ "")
    (hCat : resolvePickitCategoryFromItem params.selectedItem = none) :
    generateRowPreviewLines params = [unknownCategoryFallbackLine] := by
  simp [generateRowPreviewLines, hType, hSlug, hCat]

/-- C6 witness: the amended theorem applied at a concrete blank-category input. -/
theorem fallback_line_on_blank_category_witness :
    blankCategoryParams.selectedItemSlug.getD "" ≠ "" ∧
    generateRowPreviewLines blankCategoryParams = [unknownCategoryFallbackLine] :=
  ⟨by decide, fallback_line_on_blank_category blankCategoryParams rfl (by decide) (by decide)⟩

/-! ## Tier-ranker lemmas -/

theorem sortAsc_perm (l : List Int) : (sortAsc l).Perm l :=
  List.perm_insertionSort _ l

theorem sortAsc_sorted (l : List Int) : (sortAsc l).Pairwise (· ≤ ·) :=
  List.sorted_insertionSort _ l

/-- On an ascending-sorted list, the index of the first occurrence of a member
is the number of strictly smaller entries. -/
theorem sorted_indexOf_eq_countP_lt {l : List Int} (h : l.Pairwise (· ≤ ·)) {a : Int}
    (ha : a ∈ l) : l.indexOf a = l.countP (fun x => decide (x < a)) := by
  induction l with
  | nil => cases ha
  | cons y ys ih =>
    rw [List.pairwise_cons] at h
    by_cases hy : y = a
    · subst hy
      rw [List.indexOf_cons_self, List.countP_cons]
      have h2 : ys.countP (fun x => decide (x < y)) = 0 := by
        rw [List.countP_eq_zero]
        intro x hx
        simpa using not_lt.mpr (h.1 x hx)
      simp [h2]
    · have hmem : a ∈ ys := by
        rcases List.mem_cons.mp ha with h1 | h1
        · exact absurd h1.symm hy
        · exact h1
      have hya : y < a := lt_of_le_of_ne (h.1 a hmem) hy
      have hbeq : (y == a) = false := by simp [hy]
      rw [List.indexOf_cons, hbeq, List.countP_cons, ih h.2 hmem]
      simp [hya]

/-- Unfolding equation of `tierIndexFromBottom` at a finite level. -/
theorem tierIndexFromBottom_some_eq (tiers : List Tier) (lvl : Int) :
    tierIndexFromBottom tiers (some lvl) =
      if tiers.length = 0 then none
      else if (sortAsc (finiteLevels tiers)).indexOf lvl <
          (sortAsc (finiteLevels tiers)).length
        then some ((sortAsc (finiteLevels tiers)).length -
          (sortAsc (finiteLevels tiers)).indexOf lvl)
      else none := rfl

/-! ## Claim C3: exactly when the tier ranker is unresolvable -/

/-- C3: the tier ranker returns the unresolvable sentinel exactly when the tier
list is empty, the target level is not a finite number, or the target level is
absent from the list's finite levels; otherwise it returns a rank. -/
theorem tierRank_unresolvable_iff (tiers : List Tier) (tierLevel : Option Int) :
    tierIndexFromBottom tiers tierLevel = none ↔
      (tiers = [] ∨ tierLevel = none ∨
        ∃ lvl, tierLevel = some lvl ∧ lvl ∉ finiteLevels tiers) := by
  by_cases hE : tiers.length = 0
  · have hnil : tiers = [] := List.length_eq_zero.mp hE
    simp [tierIndexFromBottom, hE, hnil]
  · cases tierLevel with
    | none =>
      simp [tierIndexFromBottom, hE]
    | some lvl =>
      have hmem : lvl ∈ sortAsc (finiteLevels tiers) ↔ lvl ∈ finiteLevels tiers :=
        (sortAsc_perm _).mem_iff
      rw [tierIndexFromBottom_some_eq, if_neg hE]
      constructor
      · intro h
        right; right
        refine ⟨lvl, rfl, fun hin => ?_⟩
        have hidx := List.indexOf_lt_length.mpr (hmem.mpr hin)
        rw [if_pos hidx] at h
        cases h
      · rintro (h | h | ⟨l2, hl2, hnin⟩)
        · exact absurd (by simp [h]) hE
        · cases h
        · obtain rfl : l2 = lvl := by cases hl2; rfl
          rw [if_neg]
          intro hidx
          exact hnin (hmem.mp (List.indexOf_lt_length.mp hidx))

/-! ## Claim C2 (corrected): the tier ranker's formula -/

/-- C2 counterexample: the code sorts the finite levels WITH multiplicity, so
on levels `[10, 10, 20]` it ranks level 10 as `3 - 0 = 3`, while the claim's
distinct-level formula gives `2 - 0 = 2`. -/
theorem tierRank_distinct_claim_counterexample :
    tierIndexFromBottom dupLevelTiers (some 10) = some 3 ∧
    tierRankOverDistinctLevels dupLevelTiers (some 10) = some 2 ∧
    tierIndexFromBottom dupLevelTiers (some 10) ≠
      tierRankOverDistinctLevels dupLevelTiers (some 10) := by
  decide

/-- C2 (amended): the ranker sorts the finite levels ascending keeping
multiplicity and returns `count - indexOf(first occurrence)`; equivalently, the
rank of a present level is the number of finite level entries that are `≥` it.
When the finite levels are pairwise distinct this is the claim's formula: the
numerically highest level maps to rank 1 and the lowest to `count(levels)`. -/
theorem tierRank_counts_levels_with_multiplicity (tiers : List Tier) (lvl : Int)
    (h : lvl ∈ finiteLevels tiers) :
    tierIndexFromBottom tiers (some lvl) =
      some ((finiteLevels tiers).countP (fun x => decide (lvl ≤ x))) ∧
    ((finiteLevels tiers).Nodup →
      ((∀ x ∈ finiteLevels tiers, x ≤ lvl) →
        tierIndexFromBottom tiers (some lvl) = some 1) ∧
      ((∀ x ∈ finiteLevels tiers, lvl ≤ x) →
        tierIndexFromBottom tiers (some lvl) = some (finiteLevels tiers).length)) := by
  have hne : tiers.length ≠ 0 := by
    obtain ⟨t, ht, -⟩ := List.mem_filterMap.mp h
    intro h0
    exact List.ne_nil_of_mem ht (List.length_eq_zero.mp h0)
  have hperm := sortAsc_perm (finiteLevels tiers)
  have hmemS : lvl ∈ sortAsc (finiteLevels tiers) := hperm.mem_iff.mpr h
  have hidx := List.indexOf_lt_length.mpr hmemS
  have hcountLt := sorted_indexOf_eq_countP_lt (sortAsc_sorted (finiteLevels tiers)) hmemS
  have hsplit := List.length_eq_countP_add_countP (fun x => decide (x < lvl))
    (sortAsc (finiteLevels tiers))
  have hcompl : (sortAsc (finiteLevels tiers)).countP
        (fun x => decide (¬ decide (x < lvl) = true)) =
      (sortAsc (finiteLevels tiers)).countP (fun x => decide (lvl ≤ x)) :=
    List.countP_congr (fun x _ => by simp [not_lt])
  have hPc := hperm.countP_eq (fun x => decide (lvl ≤ x))
  have hmain : tierIndexFromBottom tiers (some lvl) =
      some ((finiteLevels tiers).countP (fun x => decide (lvl ≤ x))) := by
    rw [tierIndexFromBottom_some_eq, if_neg hne, if_pos hidx]
    congr 1
    omega
  refine ⟨hmain, fun hnd => ⟨fun hmax => ?_, fun hmin => ?_⟩⟩
  · rw [hmain]
    congr 1
    have hcong : (finiteLevels tiers).countP (fun x => decide (lvl ≤ x)) =
        (finiteLevels tiers).countP (fun x => x == lvl) :=
      List.countP_congr (fun x hx => by
        constructor
        · intro hle
          simpa using le_antisymm (hmax x hx) (by simpa using hle)
        · intro he
          have : x = lvl := by simpa using he
          simp [this])
    rw [hcong]
    exact List.count_eq_one_of_mem hnd h
  · rw [hmain]
    congr 1
    exact List.countP_eq_length.mpr (fun x hx => by simpa using hmin x hx)

/-- C2 witness: the amended theorem applied at levels `[1, 10, 20]` yields the
claimed ranks 3, 2 and 1. -/
theorem tierRank_counts_levels_witness :
    (1 ∈ finiteLevels threeLevelTiers) ∧
    tierIndexFromBottom threeLevelTiers (some 1) = some 3 ∧
    tierIndexFromBottom threeLevelTiers (some 10) = some 2 ∧
    tierIndexFromBottom threeLevelTiers (some 20) = some 1 :=
  ⟨by decide,
   ((tierRank_counts_levels_with_multiplicity threeLevelTiers 1 (by decide)).1).trans
     (by decide),
   by decide, by decide⟩

/-! ## Aggregation lemmas for the rule-line compiler -/

theorem sumMinFor_cons (c : String × Int × Int) (cs : List (String × Int × Int)) (x : String) :
    sumMinFor (c :: cs) x = (if c.1 = x then c.2.1 else 0) + sumMinFor cs x := by
  by_cases h : c.1 = x <;> simp [sumMinFor, List.filter_cons, h]

theorem sumMaxFor_cons (c : String × Int × Int) (cs : List (String × Int × Int)) (x : String) :
    sumMaxFor (c :: cs) x = (if c.1 = x then c.2.2 else 0) + sumMaxFor cs x := by
  by_cases h : c.1 = x <;> simp [sumMaxFor, List.filter_cons, h]

theorem lookupTotal_addTotal (acc : List StatTotal) (s : String) (m M : Int) (x : String) :
    lookupTotal (addTotal acc s m M) x =
      if s = x then
        (match lookupTotal acc s with
         | none => some ⟨s, m, M⟩
         | some t => some ⟨t.id, t.min + m, t.max + M⟩)
      else lookupTotal acc x := by
  induction acc with
  | nil =>
    by_cases h : s = x <;> simp [addTotal, lookupTotal, h]
  | cons t ts ih =>
    by_cases ht : t.id = s
    · by_cases hx : s = x
      · subst hx
        simp [addTotal, lookupTotal, ht]
      · have htx : ¬ (t.id = x) := fun h => hx (ht ▸ h)
        simp [addTotal, lookupTotal, ht, htx, hx]
    · by_cases htx : t.id = x
      · have hsx : ¬ (s = x) := fun h => ht (h ▸ htx)
        have hxs : ¬ (x = s) := fun h => hsx h.symm
        simp [addTotal, lookupTotal, ht, htx, hsx, hxs]
      · simp [addTotal, lookupTotal, ht, htx, ih]

theorem lookupTotal_foldl (contribs : List (String × Int × Int)) (acc : List StatTotal)
    (x : String) :
    lookupTotal (contribs.foldl (fun a c => addTotal a c.1 c.2.1 c.2.2) acc) x =
      match lookupTotal acc x with
      | some t => some ⟨t.id, t.min + sumMinFor contribs x, t.max + sumMaxFor contribs x⟩
      | none =>
        if contribs.filter (fun c => c.1 == x) = [] then none
        else some ⟨x, sumMinFor contribs x, sumMaxFor contribs x⟩ := by
  induction contribs generalizing acc with
  | nil =>
    cases hl : lookupTotal acc x with
    | none => simp [hl]
    | some t =>
      cases t
      simp [hl, sumMinFor, sumMaxFor]
  | cons c cs ih =>
    rw [List.foldl_cons, ih, lookupTotal_addTotal]
    by_cases hc : c.1 = x
    · rw [if_pos hc, hc]
      cases hl : lookupTotal acc x with
      | none =>
        have hfil : ¬ ((c :: cs).filter (fun d => d.1 == x) = []) := by
          simp [List.filter_cons, hc]
        simp only [hl, hfil, if_neg hfil, sumMinFor_cons, sumMaxFor_cons, if_pos hc]
        by_cases hcs : cs.filter (fun d => d.1 == x) = []
        · have hmin : sumMinFor cs x = 0 := by simp [sumMinFor, hcs]
          have hmax : sumMaxFor cs x = 0 := by simp [sumMaxFor, hcs]
          simp [hmin, hmax]
        · simp [hcs]
      | some t =>
        simp only [hl, sumMinFor_cons, sumMaxFor_cons, if_pos hc]
        simp [StatTotal.mk.injEq]
        omega
    · rw [if_neg hc]
      have hfil : (c :: cs).filter (fun d => d.1 == x) = cs.filter (fun d => d.1 == x) := by
        simp [List.filter_cons, hc]
      rw [hfil, sumMinFor_cons, sumMaxFor_cons, if_neg hc]
      cases hl : lookupTotal acc x with
      | none => simp [hl, hc]
      | some t => simp [hl, hc]

theorem mem_of_mem_firstDedupGo {x : String} :
    ∀ {seen l : List String}, x ∈ firstDedupGo seen l → x ∈ l := by
  intro seen l
  induction l generalizing seen with
  | nil => intro h; cases h
  | cons y ys ih =>
    intro h
    rw [firstDedupGo] at h
    by_cases hy : y ∈ seen
    · exact List.mem_cons_of_mem _ (ih (by simpa [hy] using h))
    · rw [if_neg hy] at h
      rcases List.mem_cons.mp h with h1 | h1
      · exact h1 ▸ List.mem_cons_self _ _
      · exact List.mem_cons_of_mem _ (ih h1)

theorem buildAfterGo_eq_firstDedup (totals : List StatTotal) (ids : List String)
    (h : ∀ x ∈ ids, x ≠ "" ∧ lookupTotal totals x ≠ none) :
    ∀ seen, buildAfterGo totals seen ids =
      (firstDedupGo seen ids).flatMap (fun statId =>
        match lookupTotal totals statId with
        | none => []
        | some t => [condGe statId t.min, condLe statId t.max]) := by
  revert h
  induction ids with
  | nil =>
    intro h seen
    simp [buildAfterGo, firstDedupGo]
  | cons x xs ih =>
    intro h seen
    obtain ⟨hx, hlk⟩ := h x (List.mem_cons_self x xs)
    have hrest : ∀ y ∈ xs, y ≠ "" ∧ lookupTotal totals y ≠ none :=
      fun y hy => h y (List.mem_cons_of_mem x hy)
    obtain ⟨t, ht⟩ := Option.ne_none_iff_exists'.mp hlk
    by_cases hseen : x ∈ seen
    · rw [buildAfterGo, if_pos (Or.inr hseen), firstDedupGo, if_pos hseen]
      exact ih hrest seen
    · rw [buildAfterGo, if_neg (by push_neg; exact ⟨hx, hseen⟩), ht, firstDedupGo,
        if_neg hseen, List.flatMap_cons, ht]
      rw [ih hrest (x :: seen)]
      rfl

theorem statContrib_fst_ne_empty {stat : StatRange} {c : String × Int × Int}
    (h : statContrib stat = some c) : c.1 ≠ "" := by
  simp only [statContrib] at h
  split at h
  · cases h
  · split at h
    · cases h
      simpa using by assumption
    · cases h

theorem slotContribs_fst_ne_empty {findAffix : String → Option AffixFamily}
    {tiersFor : Nat → Option (List Tier)} {slotIndex : Nat} {slot : AffixSlot}
    {c : String × Int × Int} (h : c ∈ slotContribs findAffix tiersFor slotIndex slot) :
    c.1 ≠ "" := by
  simp only [slotContribs] at h
  split at h
  · cases h
  · split at h
    · cases h
    · split at h
      · cases h
      · split at h
        · cases h
        · split at h
          · cases h
          · obtain ⟨stat, -, hs⟩ := List.mem_filterMap.mp h
            exact statContrib_fst_ne_empty hs

theorem mem_slotContribsFrom_flatten {findAffix : String → Option AffixFamily}
    {tiersFor : Nat → Option (List Tier)} {c : String × Int × Int} :
    ∀ {slotIndex : Nat} {slots : List AffixSlot},
      c ∈ (slotContribsFrom findAffix tiersFor slotIndex slots).flatten →
      ∃ j s, c ∈ slotContribs findAffix tiersFor j s := by
  intro slotIndex slots
  induction slots generalizing slotIndex with
  | nil => intro h; cases h
  | cons s rest ih =>
    intro h
    rw [slotContribsFrom, List.flatten_cons] at h
    rcases List.mem_append.mp h with h1 | h1
    · exact ⟨slotIndex, s, h1⟩
    · exact ih h1

theorem contribsOf_fst_ne_empty {affixSlots : List AffixSlot}
    {findAffix : String → Option AffixFamily} {tiersFor : Nat → Option (List Tier)}
    {c : String × Int × Int} (h : c ∈ contribsOf affixSlots findAffix tiersFor) :
    c.1 ≠ "" := by
  obtain ⟨j, s, hc⟩ := mem_slotContribsFrom_flatten h
  exact slotContribs_fst_ne_empty hc

theorem collect_snd_eq_foldl (affixSlots : List AffixSlot)
    (findAffix : String → Option AffixFamily) (tiersFor : Nat → Option (List Tier)) :
    (collectOrderedStatsAndTotals affixSlots findAffix tiersFor).2 =
      (contribsOf affixSlots findAffix tiersFor).foldl
        (fun acc c => addTotal acc c.1 c.2.1 c.2.2) [] := rfl

theorem collect_fst_flatten (affixSlots : List AffixSlot)
    (findAffix : String → Option AffixFamily) (tiersFor : Nat → Option (List Tier)) :
    (collectOrderedStatsAndTotals affixSlots findAffix tiersFor).1.flatten =
      (contribsOf affixSlots findAffix tiersFor).map (fun c => c.1) := by
  simp only [collectOrderedStatsAndTotals, contribsOf]
  rw [List.map_flatten]

/-! ## Claim C1: stat aggregation and once-per-id emission -/

/-- C1: for a compiler input with config type `"items"`, a non-empty slug and a
non-blank category: (1) the totals map holds, per stat id, exactly the sums of
the min and max bounds of every valid `StatRange` contribution of the slots'
chosen tiers (two slots with the same id both count); (2) the emitted stat
conditions take each id at its first appearance in slot order (and stat order
within a slot), once, as a `>=` condition on the total min followed by a `<=`
condition on the total max; (3) the compiled rule line appends the resolved
action flag's condition last, after all stat conditions. -/
theorem compile_aggregates_and_emits
    (params : PreviewParams) (pickitCategory : String)
    (contribs : List (String × Int × Int)) (ordered : List (List String))
    (totals : List StatTotal)
    (hType : params.configType.getD "items" = "items")
    (hSlug : params.selectedItemSlug.getD "" ≠ "")
    (hCat : resolvePickitCategoryFromItem params.selectedItem = some pickitCategory)
    (hContribs : contribs = contribsOf params.affixSlots params.findAffixByKey
      params.availableTiersForSlot)
    (hCollect : collectOrderedStatsAndTotals params.affixSlots params.findAffixByKey
      params.availableTiersForSlot = (ordered, totals)) :
    (∀ statId : String,
      lookupTotal totals statId =
        if contribs.filter (fun c => c.1 == statId) = [] then none
        else some ⟨statId, sumMinFor contribs statId, sumMaxFor contribs statId⟩) ∧
    buildAfterIdentifyStatConditionsInSlotOrder ordered totals =
      (firstDedup (contribs.map (fun c => c.1))).flatMap (fun statId =>
        [condGe statId (sumMinFor contribs statId),
         condLe statId (sumMaxFor contribs statId)]) ∧
    generateRowPreviewLines params =
      [buildHumanCommentLine params.selectedItem params.affixSlots params.findAffixByKey
        params.availableTiersForSlot
        (rarityFromSelectedAffixCount (countSelectedAffixes params.affixSlots))
        (resolvePickitActionFlag params.actionFlag),
       "[Category] == \"" ++ pickitCategory ++ "\" && [Rarity] == \"" ++
         rarityFromSelectedAffixCount (countSelectedAffixes params.affixSlots) ++ "\"" ++
         " # " ++
         String.intercalate " && "
           (buildAfterIdentifyStatConditionsInSlotOrder ordered totals ++
             ["[" ++ resolvePickitActionFlag params.actionFlag ++ "] == \"true\""])] := by
  have htotals : totals = contribs.foldl (fun a c => addTotal a c.1 c.2.1 c.2.2) [] := by
    rw [hContribs, ← collect_snd_eq_foldl, hCollect]
  have hordered : ordered.flatten = contribs.map (fun c => c.1) := by
    rw [hContribs, ← collect_fst_flatten, hCollect]
  have part1 : ∀ statId : String,
      lookupTotal totals statId =
        if contribs.filter (fun c => c.1 == statId) = [] then none
        else some ⟨statId, sumMinFor contribs statId, sumMaxFor contribs statId⟩ := by
    intro statId
    rw [htotals, lookupTotal_foldl]
    rfl
  have hsome : ∀ x ∈ contribs.map (fun c => c.1),
      lookupTotal totals x = some ⟨x, sumMinFor contribs x, sumMaxFor contribs x⟩ := by
    intro x hx
    obtain ⟨c, hcmem, rfl⟩ := List.mem_map.mp hx
    rw [part1 c.1]
    have hmem2 : c ∈ contribs.filter (fun d => d.1 == c.1) :=
      List.mem_filter.mpr ⟨hcmem, by simp⟩
    rw [if_neg (List.ne_nil_of_mem hmem2)]
  have hids : ∀ x ∈ contribs.map (fun c => c.1), x ≠ "" ∧ lookupTotal totals x ≠ none := by
    intro x hx
    obtain ⟨hc1, -⟩ := List.mem_map.mp hx
    refine ⟨?_, by rw [hsome x hx]; simp⟩
    obtain ⟨c, hcmem, rfl⟩ := List.mem_map.mp hx
    exact contribsOf_fst_ne_empty (hContribs ▸ hcmem)
  refine ⟨part1, ?_, ?_⟩
  · rw [buildAfterIdentifyStatConditionsInSlotOrder, hordered,
      buildAfterGo_eq_firstDedup totals _ hids []]
    rw [firstDedup, List.flatMap_def, List.flatMap_def]
    congr 1
    apply List.map_congr_left
    intro x hxd
    rw [hsome x (mem_of_mem_firstDedupGo hxd)]
  · simp only [generateRowPreviewLines]
    rw [if_neg (by simp [hType]), if_neg hSlug, hCat, hCollect]

set_option maxRecDepth 10000 in
/-- C1 witness: the theorem applied to two slots contributing
`{id: "life", min: 10, max: 20}` each; the total is `{min: 20, max: 40}`, the
id is emitted once as one `>=` and one `<=` condition, and the action flag's
condition comes last. -/
theorem compile_aggregates_and_emits_witness :
    resolvePickitCategoryFromItem c1Params.selectedItem = some "Ring" ∧
    lookupTotal (collectOrderedStatsAndTotals c1Slots c1Find c1TiersFor).2 "life" =
      some ⟨"life", 20, 40⟩ ∧
    buildAfterIdentifyStatConditionsInSlotOrder
        (collectOrderedStatsAndTotals c1Slots c1Find c1TiersFor).1
        (collectOrderedStatsAndTotals c1Slots c1Find c1TiersFor).2 =
      ["life >= \"20\"", "life <= \"40\""] ∧
    generateRowPreviewLines c1Params =
      ["// Picks up Ring of rarity Magic and StashItem if they have at least life mod of tier T1, life mod of tier T1",
       "[Category] == \"Ring\" && [Rarity] == \"Magic\" # life >= \"20\" && life <= \"40\" && [StashItem] == \"true\""] := by
  have h := compile_aggregates_and_emits c1Params "Ring"
    (contribsOf c1Slots c1Find c1TiersFor)
    (collectOrderedStatsAndTotals c1Slots c1Find c1TiersFor).1
    (collectOrderedStatsAndTotals c1Slots c1Find c1TiersFor).2
    rfl (by decide) (by decide) rfl rfl
  refine ⟨by decide, ?_, ?_, ?_⟩
  · exact (h.1 "life").trans (by decide)
  · exact (h.2.1).trans (by decide)
  · exact (h.2.2).trans (by decide)

/-! ## Slot-manager option-list lemmas -/

theorem mem_offeredAffixes {catalog : List AffixFamily}
    {maxPrefixesAllowed maxSuffixesAllowed : Nat} {slots : List AffixSlot}
    {slotIndex : Nat} {a : AffixFamily} :
    a ∈ offeredAffixes catalog maxPrefixesAllowed maxSuffixesAllowed slots slotIndex ↔
      (a ∈ catalog ∧
        slotFilterPred catalog maxPrefixesAllowed maxSuffixesAllowed slots slotIndex a
          = true) := by
  have hpiece : ∀ (lbl : String) (items : List AffixFamily),
      (a ∈ (if items.length ≠ 0 then [OptGroup.mk lbl items] else []).flatMap
        (fun g => g.items)) ↔ a ∈ items := by
    intro lbl items
    by_cases h : items.length ≠ 0
    · simp [h]
    · rw [if_neg h]
      rw [List.length_eq_zero.mp (not_ne_iff.mp h)]
      simp
  rw [offeredAffixes, groupsForSlot, List.flatMap_append, List.flatMap_append,
    List.mem_append, List.mem_append, hpiece, hpiece, hpiece]
  simp only [sortByTemplate, List.mem_insertionSort, filteredForSlot, List.mem_filter]
  constructor
  · rintro ((⟨hf, -⟩ | ⟨hf, -⟩) | ⟨hf, -⟩) <;> exact hf
  · intro hf
    by_cases hp : a.kind == some "prefix"
    · exact Or.inl (Or.inl ⟨hf, hp⟩)
    · by_cases hs : a.kind == some "suffix"
      · exact Or.inl (Or.inr ⟨hf, hs⟩)
      · refine Or.inr ⟨hf, ?_⟩
        simp only [Bool.and_eq_true, bne_iff_ne, ne_eq]
        constructor
        · simpa using hp
        · simpa using hs

/-! ## Claim C5: earlier slots exclude their keys from later option lists -/

/-- C5: if an earlier slot `i < j` has `selectedAffixKey = K`, then no affix
with key `K` is offered for slot `j`, unless slot `j` itself currently holds
`K`; the exclusion direction is from earlier to later only. -/
theorem earlier_selected_key_blocks_later (catalog : List AffixFamily)
    (maxPrefixesAllowed maxSuffixesAllowed : Nat) (slots : List AffixSlot)
    (i j : Nat) (si : AffixSlot) (K : String)
    (hij : i < j) (hi : slots.get? i = some si) (hK : si.selectedAffixKey = some K)
    (a : AffixFamily)
    (ha : a ∈ offeredAffixes catalog maxPrefixesAllowed maxSuffixesAllowed slots j)
    (hkey : affixKey (some a) = K) :
    ∃ sj, slots.get? j = some sj ∧ sj.selectedAffixKey = some K := by
  obtain ⟨hcat, hpred⟩ := mem_offeredAffixes.mp ha
  have hKne : K ≠ "" := hkey ▸ affixKey_some_ne_empty a
  have hexc : K ∈ excludedKeysForSlot slots j := by
    unfold excludedKeysForSlot
    apply List.mem_filter.mpr
    refine ⟨?_, by simp [hKne]⟩
    apply List.mem_filterMap.mpr
    refine ⟨si, ?_, hK⟩
    have hi' : (slots.take j).get? i = some si := by
      rw [List.get?_eq_getElem?] at hi ⊢
      rw [List.getElem?_take, if_pos hij, hi]
    exact List.get?_mem hi'
  by_cases hcur : currentSelectedKeyAt slots j = some (affixKey (some a))
  · rw [hkey] at hcur
    simp only [currentSelectedKeyAt, List.get?_eq_getElem?] at hcur
    cases hj : slots[j]? with
    | none => simp [hj] at hcur
    | some sj =>
      simp only [hj] at hcur
      refine ⟨sj, by rw [List.get?_eq_getElem?, hj], ?_⟩
      cases hks : sj.selectedAffixKey with
      | none => simp [hks] at hcur
      | some k =>
        simp only [hks] at hcur
        by_cases hke : k = ""
        · simp [hke] at hcur
        · simp only [if_neg hke, Option.some.injEq] at hcur
          rw [hcur]
  · exfalso
    simp only [slotFilterPred] at hpred
    rw [if_neg hcur, if_pos (hkey.symm ▸ hexc)] at hpred
    cases hpred

/-- C5 witness: slot 0 holds the key, the affix is still offered to slot 1
(which holds the same key itself), and the theorem concludes that slot 1's own
selection is that key. -/
theorem earlier_selected_key_blocks_later_witness :
    (c5Slots.get? 0 = some { selectedAffixKey := some (affixKey (some c5Affix)) } ∧
      c5Affix ∈ offeredAffixes [c5Affix] 3 3 c5Slots 1) ∧
    ∃ sj, c5Slots.get? 1 = some sj ∧
      sj.selectedAffixKey = some (affixKey (some c5Affix)) :=
  ⟨⟨by decide, by decide⟩,
   earlier_selected_key_blocks_later [c5Affix] 3 3 c5Slots 0 1
     { selectedAffixKey := some (affixKey (some c5Affix)) } (affixKey (some c5Affix))
     (by decide) (by decide) rfl c5Affix (by decide) rfl⟩

/-! ## Claim C8: slot-count bounds -/

theorem setSlotKey_length (slots : List AffixSlot) (slotIndex : Nat) (key : Option String) :
    (setSlotKey slots slotIndex key).length = slots.length := by
  unfold setSlotKey
  cases h : slots.get? slotIndex <;> simp [List.length_set]

theorem setSlotTier_length (slots : List AffixSlot) (slotIndex : Nat) (lvl : Option Int) :
    (setSlotTier slots slotIndex lvl).length = slots.length := by
  unfold setSlotTier
  cases h : slots.get? slotIndex <;> simp [List.length_set]

/-- C8: every reachable slot collection has between 1 and `maxSlots` slots;
`addSlot` is a no-op at the cap, `removeSlot` is a no-op on a single slot, and
`resetSlots` always yields exactly one empty slot. -/
theorem slot_count_bounds_of_reachable (catalog : List AffixFamily)
    (maxAffixSlots maxPrefixesAllowed maxSuffixesAllowed : Nat) (hmax : 1 ≤ maxAffixSlots)
    (slots : List AffixSlot)
    (h : ReachableSlots catalog maxAffixSlots maxPrefixesAllowed maxSuffixesAllowed slots) :
    (1 ≤ slots.length ∧ slots.length ≤ maxAffixSlots) ∧
    (slots.length = maxAffixSlots →
      applyOp catalog maxAffixSlots maxPrefixesAllowed maxSuffixesAllowed .add slots
        = slots) ∧
    (∀ i, slots.length = 1 →
      applyOp catalog maxAffixSlots maxPrefixesAllowed maxSuffixesAllowed (.remove i) slots
        = slots) ∧
    (∀ other : List AffixSlot,
      applyOp catalog maxAffixSlots maxPrefixesAllowed maxSuffixesAllowed .reset other
        = [emptySlot]) := by
  have hbound : 1 ≤ slots.length ∧ slots.length ≤ maxAffixSlots := by
    induction h with
    | init => exact ⟨le_refl 1, hmax⟩
    | step op s hr ih =>
      cases op with
      | add =>
        simp only [applyOp]
        by_cases h1 : maxAffixSlots ≤ s.length
        · rw [if_pos h1]; exact ih
        · rw [if_neg h1]
          by_cases h2 : canAddSlot catalog maxAffixSlots maxPrefixesAllowed
            maxSuffixesAllowed s = true
          · rw [if_pos h2]
            simp only [List.length_append, List.length_cons, List.length_nil]
            omega
          · rw [if_neg h2]; exact ih
      | remove i =>
        simp only [applyOp]
        by_cases h1 : s.length ≤ 1
        · rw [if_pos h1]; exact ih
        · rw [if_neg h1, List.length_eraseIdx]
          by_cases h2 : i < s.length
          · rw [if_pos h2]; omega
          · rw [if_neg h2]; exact ih
      | reset => exact ⟨le_refl 1, hmax⟩
      | select i a =>
        simp only [applyOp]
        by_cases hmem : a ∈ offeredAffixes catalog maxPrefixesAllowed maxSuffixesAllowed s i
        · rw [if_pos hmem, setSlotKey_length]; exact ih
        · rw [if_neg hmem]; exact ih
      | clear i =>
        simp only [applyOp]
        rw [setSlotKey_length]; exact ih
      | setTier i lvl =>
        simp only [applyOp]
        rw [setSlotTier_length]; exact ih
  refine ⟨hbound, ?_, ?_, fun other => rfl⟩
  · intro hlen
    simp only [applyOp]
    rw [if_pos (le_of_eq hlen.symm)]
  · intro i hlen
    simp only [applyOp]
    rw [if_pos (by omega)]

/-- C8 witness: the theorem applied to the initial collection with the default
configuration `maxSlots = 6`. -/
theorem slot_count_bounds_witness :
    1 ≤ ([emptySlot] : List AffixSlot).length ∧
      ([emptySlot] : List AffixSlot).length ≤ 6 := by
  have h := slot_count_bounds_of_reachable [] 6 3 3 (by decide) [emptySlot]
    ReachableSlots.init
  exact h.1

/-! ## Counting lemmas for the prefix/suffix caps -/

theorem countKindsAux_none (catalog : List AffixFamily) :
    ∀ (l : List AffixSlot) (i : Nat),
      countKindsAux catalog none i l =
        (l.countP (prefSel catalog), l.countP (sufSel catalog)) := by
  intro l
  induction l with
  | nil => intro i; simp [countKindsAux]
  | cons s rest ih =>
    intro i
    simp only [countKindsAux, ih (i + 1)]
    have hne : (none : Option Nat) ≠ some i := by simp
    rw [if_neg hne]
    rw [List.countP_cons, List.countP_cons]
    by_cases hp : selectedKindOfSlot catalog s = "prefix"
    · have hs : ¬ selectedKindOfSlot catalog s = "suffix" := by
        rw [hp]; decide
      simp [prefSel, sufSel, hp, hs]
    · by_cases hs : selectedKindOfSlot catalog s = "suffix"
      · simp [prefSel, sufSel, hp, hs]
      · simp [prefSel, sufSel, hp, hs]

theorem countKindsAux_some_lt (catalog : List AffixFamily) :
    ∀ (l : List AffixSlot) (i e : Nat), e < i →
      countKindsAux catalog (some e) i l = countKindsAux catalog none i l := by
  intro l
  induction l with
  | nil => intro i e _; simp [countKindsAux]
  | cons s rest ih =>
    intro i e he
    have hne : (some e : Option Nat) ≠ some i := by
      simp
      omega
    have hnone : (none : Option Nat) ≠ some i := by simp
    simp only [countKindsAux, if_neg hne, if_neg hnone, ih (i + 1) e (by omega)]

theorem countKindsAux_some_oob (catalog : List AffixFamily) :
    ∀ (l : List AffixSlot) (i e : Nat), l.length ≤ e - i →
      countKindsAux catalog (some e) i l = countKindsAux catalog none i l := by
  intro l
  induction l with
  | nil => intro i e _; simp [countKindsAux]
  | cons s rest ih =>
    intro i e hlen
    simp only [List.length_cons] at hlen
    have hne : (some e : Option Nat) ≠ some i := by
      simp
      omega
    have hnone : (none : Option Nat) ≠ some i := by simp
    simp only [countKindsAux, if_neg hne, if_neg hnone, ih (i + 1) e (by omega)]

theorem countKindsAux_some_ge (catalog : List AffixFamily) :
    ∀ (l : List AffixSlot) (i e : Nat), i ≤ e → (hlt : e - i < l.length) →
      ((countKindsAux catalog (some e) i l).1 +
          (if prefSel catalog l[e - i] then 1 else 0) = l.countP (prefSel catalog)) ∧
      ((countKindsAux catalog (some e) i l).2 +
          (if sufSel catalog l[e - i] then 1 else 0) = l.countP (sufSel catalog)) := by
  intro l
  induction l with
  | nil =>
    intro i e _ hlt
    simp at hlt
  | cons s rest ih =>
    intro i e hle hlt
    by_cases he : e = i
    · subst he
      have h0 : e - e = 0 := by omega
      simp only [countKindsAux, if_pos rfl, h0, List.getElem_cons_zero,
        countKindsAux_some_lt catalog rest (e + 1) e (by omega),
        countKindsAux_none catalog rest (e + 1)]
      rw [List.countP_cons, List.countP_cons]
      constructor
      · by_cases hp : prefSel catalog s <;> simp [hp]
      · by_cases hp : sufSel catalog s <;> simp [hp]
    · have hgt : i < e := by omega
      have hsub : e - i = (e - (i + 1)) + 1 := by omega
      have hlt2 : e - (i + 1) < rest.length := by
        simp only [List.length_cons] at hlt
        omega
      have hne : (some e : Option Nat) ≠ some i := by
        simp
        omega
      obtain ⟨ihp, ihs⟩ := ih (i + 1) e (by omega) hlt2
      simp only [countKindsAux, if_neg hne, hsub, List.getElem_cons_succ]
      rw [List.countP_cons, List.countP_cons]
      constructor
      · by_cases hp : selectedKindOfSlot catalog s = "prefix"
        · have : prefSel catalog s = true := by simp [prefSel, hp]
          simp only [hp, if_pos rfl, this, if_true]
          omega
        · have : prefSel catalog s = false := by simp [prefSel, hp]
          simp only [if_neg hp, this]
          simp
          omega
      · by_cases hp : selectedKindOfSlot catalog s = "suffix"
        · have : sufSel catalog s = true := by simp [sufSel, hp]
          simp only [hp, if_pos rfl, this, if_true]
          omega
        · have : sufSel catalog s = false := by simp [sufSel, hp]
          simp only [if_neg hp, this]
          simp
          omega

theorem countSelectedKinds_none_eq (catalog : List AffixFamily) (slots : List AffixSlot) :
    countSelectedKinds catalog slots none =
      (slots.countP (prefSel catalog), slots.countP (sufSel catalog)) :=
  countKindsAux_none catalog slots 0

theorem countSelectedKinds_some_eq (catalog : List AffixFamily) (slots : List AffixSlot)
    (j : Nat) (hlt : j < slots.length) :
    ((countSelectedKinds catalog slots (some j)).1 +
        (if prefSel catalog slots[j] then 1 else 0) = slots.countP (prefSel catalog)) ∧
    ((countSelectedKinds catalog slots (some j)).2 +
        (if sufSel catalog slots[j] then 1 else 0) = slots.countP (sufSel catalog)) := by
  have h := countKindsAux_some_ge catalog slots 0 j (by omega) (by simpa using hlt)
  simpa [countSelectedKinds] using h

/-- With coherent keys (the spec's "two affixes are the same selectable option
iff their keys are equal"), looking up an affix's own key yields its kind. -/
theorem kindOfSelectedKey_eq_of_mem (catalog : List AffixFamily)
    (hcoh : ∀ a ∈ catalog, ∀ b ∈ catalog,
      affixKey (some a) = affixKey (some b) → a.kind.getD "" = b.kind.getD "")
    (a : AffixFamily) (hcat : a ∈ catalog) :
    kindOfSelectedKey catalog (some (affixKey (some a))) = a.kind.getD "" := by
  have hKne := affixKey_some_ne_empty a
  simp only [kindOfSelectedKey, findAffixByKey]
  rw [if_neg hKne]
  cases hfind : catalog.find? (fun b => affixKey (some b) == affixKey (some a)) with
  | none =>
    exfalso
    have := List.find?_eq_none.mp hfind a hcat
    simp at this
  | some b =>
    have hb1 : affixKey (some b) = affixKey (some a) := by
      simpa using List.find?_some hfind
    have hb2 := List.mem_of_find?_eq_some hfind
    exact hcoh b hb2 a hcat hb1

/-- What passing `groupsForSlot`'s filter means: either the affix is the slot's
own current selection, or it survives uniqueness exclusion and, when it is of
prefix (resp. suffix) kind, the cap for that kind allows it. -/
theorem pred_extract (catalog : List AffixFamily)
    (maxPrefixesAllowed maxSuffixesAllowed : Nat) (slots : List AffixSlot)
    (slotIndex : Nat) (a : AffixFamily)
    (hpred : slotFilterPred catalog maxPrefixesAllowed maxSuffixesAllowed slots slotIndex a
      = true) :
    currentSelectedKeyAt slots slotIndex = some (affixKey (some a)) ∨
    (affixKey (some a) ∉ excludedKeysForSlot slots slotIndex ∧
      (a.kind.getD "" = "prefix" →
        ((countSelectedKinds catalog slots (some slotIndex)).1 < maxPrefixesAllowed ∨
          currentSelectedKindAt catalog slots slotIndex = "prefix")) ∧
      (a.kind.getD "" = "suffix" →
        ((countSelectedKinds catalog slots (some slotIndex)).2 < maxSuffixesAllowed ∨
          currentSelectedKindAt catalog slots slotIndex = "suffix"))) := by
  simp only [slotFilterPred] at hpred
  by_cases hcur : currentSelectedKeyAt slots slotIndex = some (affixKey (some a))
  · exact Or.inl hcur
  · rw [if_neg hcur] at hpred
    right
    by_cases hexc : affixKey (some a) ∈ excludedKeysForSlot slots slotIndex
    · rw [if_pos hexc] at hpred
      cases hpred
    · rw [if_neg hexc] at hpred
      refine ⟨hexc, ?_, ?_⟩
      · intro hak
        by_cases hallow : (countSelectedKinds catalog slots (some slotIndex)).1
            < maxPrefixesAllowed ∨ currentSelectedKindAt catalog slots slotIndex = "prefix"
        · exact hallow
        · rw [if_pos ⟨hak, hallow⟩] at hpred
          cases hpred
      · intro hak
        have hnp : ¬ (a.kind.getD "" = "prefix" ∧
            ¬ ((countSelectedKinds catalog slots (some slotIndex)).1 < maxPrefixesAllowed ∨
              currentSelectedKindAt catalog slots slotIndex = "prefix")) := by
          rintro ⟨h1, -⟩
          rw [hak] at h1
          exact absurd h1 (by decide)
        rw [if_neg hnp] at hpred
        by_cases hallow : (countSelectedKinds catalog slots (some slotIndex)).2
            < maxSuffixesAllowed ∨ currentSelectedKindAt catalog slots slotIndex = "suffix"
        · exact hallow
        · rw [if_pos ⟨hak, hallow⟩] at hpred
          cases hpred

/-- `currentSelectedKindAt` is the selected kind of the slot at that index. -/
theorem currentSelectedKindAt_eq (catalog : List AffixFamily) (slots : List AffixSlot)
    (slotIndex : Nat) (si : AffixSlot) (hgi : slots.get? slotIndex = some si) :
    currentSelectedKindAt catalog slots slotIndex = selectedKindOfSlot catalog si := by
  simp only [currentSelectedKindAt, currentSelectedKeyAt, hgi, selectedKindOfSlot]
  cases hks : si.selectedAffixKey with
  | none => simp
  | some k =>
    by_cases hke : k = ""
    · simp [hke]
    · simp [hke]

/-! ## Claim C4: the prefix/suffix caps are invariants -/

/-- C4: in every slot collection reachable through the public operations (with
selections restricted to affixes the slot's option list offers), the number of
slots whose selection is of prefix kind never exceeds `maxPrefixes`, and
likewise for suffixes.  The hypothesis `hcoh` formalises the data model of the
specification ("two affixes are the same selectable option iff their keys are
equal"): equal keys determine the kind. -/
theorem reachable_slots_respect_kind_caps (catalog : List AffixFamily)
    (maxAffixSlots maxPrefixesAllowed maxSuffixesAllowed : Nat)
    (hcoh : ∀ a ∈ catalog, ∀ b ∈ catalog,
      affixKey (some a) = affixKey (some b) → a.kind.getD "" = b.kind.getD "")
    (slots : List AffixSlot)
    (h : ReachableSlots catalog maxAffixSlots maxPrefixesAllowed maxSuffixesAllowed slots) :
    (countSelectedKinds catalog slots none).1 ≤ maxPrefixesAllowed ∧
    (countSelectedKinds catalog slots none).2 ≤ maxSuffixesAllowed := by
  rw [countSelectedKinds_none_eq]
  induction h with
  | init =>
    constructor <;> simp [prefSel, sufSel, selectedKindOfSlot, emptySlot]
  | step op s hr ih =>
    cases op with
    | add =>
      simp only [applyOp]
      by_cases h1 : maxAffixSlots ≤ s.length
      · rw [if_pos h1]; exact ih
      · rw [if_neg h1]
        by_cases h2 : canAddSlot catalog maxAffixSlots maxPrefixesAllowed
          maxSuffixesAllowed s = true
        · rw [if_pos h2, List.countP_append, List.countP_append]
          have hp : ([emptySlot] : List AffixSlot).countP (prefSel catalog) = 0 := by
            simp [prefSel, selectedKindOfSlot, emptySlot]
          have hs : ([emptySlot] : List AffixSlot).countP (sufSel catalog) = 0 := by
            simp [sufSel, selectedKindOfSlot, emptySlot]
          rw [hp, hs]
          constructor
          · omega
          · omega
        · rw [if_neg h2]; exact ih
    | remove i =>
      simp only [applyOp]
      by_cases h1 : s.length ≤ 1
      · rw [if_pos h1]; exact ih
      · rw [if_neg h1]
        have hsub := List.eraseIdx_sublist s i
        exact ⟨le_trans (hsub.countP_le _) ih.1, le_trans (hsub.countP_le _) ih.2⟩
    | reset =>
      constructor <;> simp [applyOp, prefSel, sufSel, selectedKindOfSlot, emptySlot]
    | clear i =>
      cases hgi : s.get? i with
      | none =>
        simp only [applyOp, setSlotKey, hgi]
        exact ih
      | some si =>
        simp only [applyOp, setSlotKey, hgi]
        have hgel : s[i]? = some si := by rw [← List.get?_eq_getElem?]; exact hgi
        obtain ⟨hlt, hge⟩ := List.getElem?_eq_some_iff.mp hgel
        have hzp : prefSel catalog
            { si with selectedAffixKey := none, selectedTierLevel := none } = false := by
          simp [prefSel, selectedKindOfSlot]
        have hzs : sufSel catalog
            { si with selectedAffixKey := none, selectedTierLevel := none } = false := by
          simp [sufSel, selectedKindOfSlot]
        constructor
        · rw [List.countP_set _ _ _ _ hlt, hzp]
          simp only [Bool.false_eq_true, if_false, Nat.add_zero]
          have := ih.1
          omega
        · rw [List.countP_set _ _ _ _ hlt, hzs]
          simp only [Bool.false_eq_true, if_false, Nat.add_zero]
          have := ih.2
          omega
    | setTier i lvl =>
      cases hgi : s.get? i with
      | none =>
        simp only [applyOp, setSlotTier, hgi]
        exact ih
      | some si =>
        simp only [applyOp, setSlotTier, hgi]
        have hgel : s[i]? = some si := by rw [← List.get?_eq_getElem?]; exact hgi
        obtain ⟨hlt, hge⟩ := List.getElem?_eq_some_iff.mp hgel
        have hble_p := List.boole_getElem_le_countP (prefSel catalog) s i hlt
        have hble_s := List.boole_getElem_le_countP (sufSel catalog) s i hlt
        have hzp : prefSel catalog { si with selectedTierLevel := lvl } = prefSel catalog si :=
          rfl
        have hzs : sufSel catalog { si with selectedTierLevel := lvl } = sufSel catalog si :=
          rfl
        rw [hge] at hble_p hble_s
        constructor
        · rw [List.countP_set _ _ _ _ hlt, hzp, hge]
          have := ih.1
          omega
        · rw [List.countP_set _ _ _ _ hlt, hzs, hge]
          have := ih.2
          omega
    | select i a =>
      by_cases hmem : a ∈ offeredAffixes catalog maxPrefixesAllowed maxSuffixesAllowed s i
      · obtain ⟨hcat, hpred⟩ := mem_offeredAffixes.mp hmem
        cases hgi : s.get? i with
        | none =>
          simp only [applyOp, if_pos hmem, setSlotKey, hgi]
          exact ih
        | some si =>
          simp only [applyOp, if_pos hmem, setSlotKey, hgi]
          have hgel : s[i]? = some si := by rw [← List.get?_eq_getElem?]; exact hgi
          obtain ⟨hlt, hge⟩ := List.getElem?_eq_some_iff.mp hgel
          have hKne := affixKey_some_ne_empty a
          have hkind := kindOfSelectedKey_eq_of_mem catalog hcoh a hcat
          have hindnew_p : prefSel catalog { si with selectedAffixKey := some (affixKey (some a)), selectedTierLevel := none } = (a.kind.getD "" == "prefix") := by
            simp [prefSel, selectedKindOfSlot, hKne, hkind]
          have hindnew_s : sufSel catalog { si with selectedAffixKey := some (affixKey (some a)), selectedTierLevel := none } = (a.kind.getD "" == "suffix") := by
            simp [sufSel, selectedKindOfSlot, hKne, hkind]
          have hble_p := List.boole_getElem_le_countP (prefSel catalog) s i hlt
          have hble_s := List.boole_getElem_le_countP (sufSel catalog) s i hlt
          rcases pred_extract catalog maxPrefixesAllowed maxSuffixesAllowed s i a hpred
            with hcur | ⟨-, hallowP, hallowS⟩
          · have hsik : si.selectedAffixKey = some (affixKey (some a)) := by
              simp only [currentSelectedKeyAt, hgi] at hcur
              cases hks : si.selectedAffixKey with
              | none => simp [hks] at hcur
              | some k =>
                simp only [hks] at hcur
                by_cases hke : k = ""
                · simp [hke] at hcur
                · simp only [if_neg hke, Option.some.injEq] at hcur
                  rw [hcur]
            have hsame_p : prefSel catalog si = (a.kind.getD "" == "prefix") := by
              simp [prefSel, selectedKindOfSlot, hsik, hKne, hkind]
            have hsame_s : sufSel catalog si = (a.kind.getD "" == "suffix") := by
              simp [sufSel, selectedKindOfSlot, hsik, hKne, hkind]
            rw [hge] at hble_p hble_s
            rw [hsame_p] at hble_p
            rw [hsame_s] at hble_s
            constructor
            · rw [List.countP_set _ _ _ _ hlt, hge, hindnew_p, hsame_p]
              have := ih.1
              omega
            · rw [List.countP_set _ _ _ _ hlt, hge, hindnew_s, hsame_s]
              have := ih.2
              omega
          · have hrel := countSelectedKinds_some_eq catalog s i hlt
            rw [hge] at hrel hble_p hble_s
            constructor
            · rw [List.countP_set _ _ _ _ hlt, hge, hindnew_p]
              by_cases hak : a.kind.getD "" = "prefix"
              · have hbNew : (if (a.kind.getD "" == "prefix") = true then (1 : Nat) else 0)
                    = 1 := by simp [hak]
                rw [hbNew]
                rcases hallowP hak with hlt2 | hck
                · have h1 := hrel.1
                  omega
                · have hsi_p : prefSel catalog si = true := by
                    rw [currentSelectedKindAt_eq catalog s i si hgi] at hck
                    simp [prefSel, hck]
                  have h1 := hrel.1
                  rw [hsi_p] at h1
                  have := ih.1
                  simp only [if_true] at h1
                  omega
              · have hbNew : (if (a.kind.getD "" == "prefix") = true then (1 : Nat) else 0)
                    = 0 := by simp [hak]
                rw [hbNew]
                have := ih.1
                omega
            · rw [List.countP_set _ _ _ _ hlt, hge, hindnew_s]
              by_cases hak : a.kind.getD "" = "suffix"
              · have hbNew : (if (a.kind.getD "" == "suffix") = true then (1 : Nat) else 0)
                    = 1 := by simp [hak]
                rw [hbNew]
                rcases hallowS hak with hlt2 | hck
                · have h1 := hrel.2
                  omega
                · have hsi_s : sufSel catalog si = true := by
                    rw [currentSelectedKindAt_eq catalog s i si hgi] at hck
                    simp [sufSel, hck]
                  have h1 := hrel.2
                  rw [hsi_s] at h1
                  have := ih.2
                  simp only [if_true] at h1
                  omega
              · have hbNew : (if (a.kind.getD "" == "suffix") = true then (1 : Nat) else 0)
                    = 0 := by simp [hak]
                rw [hbNew]
                have := ih.2
                omega
      · simp only [applyOp, if_neg hmem]
        exact ih

/-- C4 witness: the invariant applied to the state reached by selecting the
offered prefix affix into the initial slot. -/
theorem reachable_slots_respect_kind_caps_witness :
    (countSelectedKinds c4Catalog
      (applyOp c4Catalog 6 3 3 (SlotOp.select 0 c4Affix) [emptySlot]) none).1 ≤ 3 ∧
    (countSelectedKinds c4Catalog
      (applyOp c4Catalog 6 3 3 (SlotOp.select 0 c4Affix) [emptySlot]) none).2 ≤ 3 :=
  reachable_slots_respect_kind_caps c4Catalog 6 3 3 (by decide) _
    (ReachableSlots.step (SlotOp.select 0 c4Affix) [emptySlot] ReachableSlots.init)
